import Mathlib

/-!
Verification of the chat-app terminal core (client-side Terminal, Argument
Parser, Command Registry, History Synchronizer, and Message Store Client).

JavaScript strings are shallowly embedded as `List Char` (the sources only
manipulate ASCII text, where one JS UTF-16 code unit is one `Char`).  The JS
string builtins used by the sources (`replace` with a string pattern or a
character-class regex, `split`, `includes`, `trim`, `substring`, `toLowerCase`,
`encodeURI`, `decodeURI`, indexing) are modelled below; their semantics follow
ECMAScript on the fragments the sources exercise.
-/

set_option maxRecDepth 10000

namespace ChattyApp

/-- JS strings, modelled as lists of characters. -/
abbrev Str := List Char

/-- Embed a Lean string literal as a `Str`. -/
def str (s : String) : Str := s.data

/-- Boolean test that `p` is a prefix of `s` (used by the string builtins). -/
def strPre : Str → Str → Bool
  | [], _ => true
  | _ :: _, [] => false
  | a :: as, b :: bs => decide (a = b) && strPre as bs

/-- Worker for `jsReplaceAll`, structurally recursive on a fuel argument so
that it evaluates by kernel reduction; every scanning step consumes at least
one character, so fuel equal to the string length never runs out. -/
def jsReplaceAllF (pat rep : Str) : Nat → Str → Str
  | _, [] => []
  | 0, s => s
  | fuel + 1, c :: rest =>
    if pat ≠ [] ∧ strPre pat (c :: rest) = true then
      rep ++ jsReplaceAllF pat rep fuel ((c :: rest).drop pat.length)
    else
      c :: jsReplaceAllF pat rep fuel rest

/-- JS `s.replace(pat, rep)` with a *global* (`/g`) pattern: every
non-overlapping occurrence of `pat`, scanning left to right, is replaced by
`rep`.  (The sources only use non-empty patterns; an empty pattern returns the
input unchanged here.) -/
def jsReplaceAll (pat rep s : Str) : Str := jsReplaceAllF pat rep s.length s

/-- JS `s.replace(pat, rep)` with a *string* pattern: only the first
occurrence of `pat` is replaced by `rep` (ECMAScript `String.prototype.replace`
with a string first argument). -/
def jsReplaceFirst (pat rep : Str) : Str → Str
  | [] => if pat = [] then rep else []
  | c :: rest =>
    if strPre pat (c :: rest) then rep ++ (c :: rest).drop pat.length
    else c :: jsReplaceFirst pat rep rest

/-- Worker for `jsSplit`, structurally recursive on a fuel argument (fuel
equal to the string length never runs out, as for `jsReplaceAllF`). -/
def jsSplitF (sep : Str) : Nat → Str → List Str
  | _, [] => [[]]
  | 0, s => [s]
  | fuel + 1, c :: rest =>
    if sep ≠ [] ∧ strPre sep (c :: rest) = true then
      [] :: jsSplitF sep fuel ((c :: rest).drop sep.length)
    else
      match jsSplitF sep fuel rest with
      | [] => [[c]]
      | seg :: segs => (c :: seg) :: segs

/-- JS `s.split(sep)` for a non-empty string separator: the list of segments
between non-overlapping occurrences of `sep`, scanning left to right.  Always
returns at least one segment. -/
def jsSplit (sep s : Str) : List Str := jsSplitF sep s.length s

/-- JS `s.includes(pat)`: substring test. -/
def jsIncludes (s pat : Str) : Bool :=
  match s with
  | [] => decide (pat = [])
  | c :: rest => strPre pat (c :: rest) || jsIncludes rest pat

/-- Whitespace recognised by JS `trim` (the sources only produce spaces,
tabs, carriage returns and newlines). -/
def isWS (c : Char) : Bool := decide (c = ' ' ∨ c = '\n' ∨ c = '\t' ∨ c = '\r')

/-- JS `s.trim()`: strip leading and trailing whitespace. -/
def jsTrim (s : Str) : Str :=
  ((s.dropWhile isWS).reverse.dropWhile isWS).reverse

/-- JS `s[i]`: `undefined` (here `none`) when out of range. -/
def jsCharAt (s : Str) (i : Nat) : Option Char := s[i]?

/-- Character class `[a-z0-9]` with the `i` (ignore-case) flag, as in the
regex `/[^a-z0-9]/gi` of `DB.postMsg`. -/
def isAlnumCI (c : Char) : Bool :=
  decide ((97 ≤ c.toNat ∧ c.toNat ≤ 122) ∨ (65 ≤ c.toNat ∧ c.toNat ≤ 90) ∨
          (48 ≤ c.toNat ∧ c.toNat ≤ 57))

/-- JS `s.toLowerCase()`.  On the ASCII fragment the sources reach (the
strings fed to it consist of `[A-Za-z0-9_]` only) this is exactly a map of
`Char.toLower` over the characters. -/
def jsToLowerCase (s : Str) : Str := s.map Char.toLower

/-- Characters that JS `encodeURI` leaves unescaped: ASCII alphanumerics and
`; , / ? : @ & = + $ - _ . ! ~ * ' ( ) #` (given here by code point). -/
def uriUnescaped (c : Char) : Bool :=
  isAlnumCI c ||
    [59, 44, 47, 63, 58, 64, 38, 61, 43, 36, 45, 95, 46, 33, 126, 42, 39, 40,
     41, 35].contains c.toNat

/-- Hex digit for a value below 16 (uppercase, as produced by `encodeURI`). -/
def hexDigit (n : Nat) : Char :=
  Char.ofNat (if n < 10 then 48 + n else 55 + n)

/-- JS `encodeURI(s)`, modelled for ASCII code points (after `DB.postMsg`'s
substitution every character fed to it is in `[a-z0-9_]`, where `encodeURI`
is the identity). -/
def jsEncodeURI : Str → Str
  | [] => []
  | c :: rest =>
    (if uriUnescaped c then [c]
     else ['%', hexDigit (c.toNat / 16 % 16), hexDigit (c.toNat % 16)]) ++
    jsEncodeURI rest

/-- Value of a hex digit character, if it is one. -/
def hexVal (c : Char) : Option Nat :=
  if 48 ≤ c.toNat ∧ c.toNat ≤ 57 then some (c.toNat - 48)
  else if 65 ≤ c.toNat ∧ c.toNat ≤ 70 then some (c.toNat - 55)
  else if 97 ≤ c.toNat ∧ c.toNat ≤ 102 then some (c.toNat - 87)
  else none

/-- JS `decodeURI(s)`, modelled for ASCII escape sequences: a `%XX` escape of
a non-reserved ASCII code point is decoded, anything else is kept verbatim.
(The terminal only ever feeds it `%`-free strings, on which `decodeURI` is
the identity; real `decodeURI` throws on malformed escapes, which the sources
never produce.) -/
def jsDecodeURI : Str → Str
  | [] => []
  | '%' :: a :: b :: rest2 =>
    (match hexVal a, hexVal b with
     | some x, some y =>
       let n := 16 * x + y
       if n < 128 ∧ ¬ [35, 36, 38, 43, 44, 47, 58, 59, 61, 63, 64].contains n
       then Char.ofNat n :: jsDecodeURI rest2
       else '%' :: jsDecodeURI (a :: b :: rest2)
     | _, _ => '%' :: jsDecodeURI (a :: b :: rest2))
  | c :: rest => c :: jsDecodeURI rest

/-!
Message Store Client (`db.js`).  `DB.postMsg(alias, content, at)` makes each
argument URL-safe by replacing every character outside `[a-z0-9]` (with the
ignore-case flag, so outside `[A-Za-z0-9]`) with `_` and lowercasing the
result, then percent-encodes the three parts into the request URL.
-/

/-- The regex replacement `s.replace(/[^a-z0-9]/gi, "_")`: a single-character
class with the global flag replaces each matching character independently. -/
def replaceNonAlnum (s : Str) : Str :=
  s.map fun c => if isAlnumCI c then c else '_'

/-- One component of `DB.postMsg`'s `urlSafe` array:
`x.replace(/[^a-z0-9]/gi, "_").toLowerCase()`. -/
def urlSafePart (s : Str) : Str := jsToLowerCase (replaceNonAlnum s)

/-- The URL that `DB.postMsg(alias, content, at)` issues a GET request to
(`alias` and `at` are keywords in Lean, hence the primed names). -/
def postMsgUrl (alias' content at' : Str) : Str :=
  str "http://143.198.57.139:80/msg/" ++ jsEncodeURI (urlSafePart alias') ++
  str "/" ++ jsEncodeURI (urlSafePart content) ++
  str "/" ++ jsEncodeURI (urlSafePart at')

/-!
Terminal (`terminal.js`).  The client-local session, style and buffer state
of one `Terminal` instance.  DOM nodes are abstracted to the strings the code
stores in them: `stdoutHTML` is the `innerHTML` of the output region,
`stdinValue` the textarea value, `stdoutBackground`/`stdoutColor` the output
pane's inline style, `docFilter` the document element's filter style.
`posted` accumulates the `(alias, content, at)` argument triples of every
`DB.postMsg` call, oldest first.
-/

structure TermState where
  user : Str
  system : Str
  path : Str
  ps1 : Str
  buffer : Nat
  cwd : Bool
  stdoutBackground : Str
  stdoutColor : Str
  docFilter : Str
  stdinValue : Str
  stdoutHTML : Str
  posted : List (Str × Str × Str)
deriving DecidableEq

/-- `Terminal.getPrompt`: the current shell prompt as HTML (the three span
colors are the constructor-set `usernameColor`, `pathColor`, `ps1Color`,
which nothing ever reassigns). -/
def getPrompt (st : TermState) : Str :=
  str "<span style=\"color: var(--secondary-text)\">" ++ st.user ++ str "@" ++
  st.system ++ str ":" ++
  str "</span><span style=\"color: var(--tertiary-text)\">" ++ st.path ++
  str "</span><span style=\"color: var(--primary-text)\">" ++ st.ps1 ++
  str "</span>"

/-- Result of `Terminal._parseArg`: JS `undefined`, `true`, or a string. -/
inductive PR where
  | undef : PR
  | tru : PR
  | strv : Str → PR
deriving DecidableEq

/-- JS truthiness of a `_parseArg` result (`undefined` and `""` are falsy). -/
def PR.truthy : PR → Bool
  | .undef => false
  | .tru => true
  | .strv s => decide (s ≠ [])

/-- JS string coercion of a `_parseArg` result, as a template literal or
string operation would produce it. -/
def PR.asStr : PR → Str
  | .undef => str "undefined"
  | .tru => str "true"
  | .strv s => s

/-- The "current logical line" seen by `_parseArg`: strip every `<br />`,
split by the rendered prompt, and take the last-but-one segment
(`currLine[currLine.length - 2]`, which is JS `undefined` when the split
produced fewer than two segments). -/
def currentLineOf (st : TermState) (input : Str) : Option Str :=
  let currLine := jsSplit (getPrompt st) (jsReplaceAll (str "<br />") [] input)
  if h : 2 ≤ currLine.length then
    some (currLine.get ⟨currLine.length - 2, by omega⟩)
  else none

/-- `Terminal._parseArg(input, command, nargs)`: indicate whether `command`
occurs in the most recent line and optionally return its positional argument.
Guarded by the current line being truthy and the input's second-to-last
character being `>` (i.e. the input ends one character after a rendered
prompt/tag). -/
def parseArg (st : TermState) (input command : Str) (nargs : Bool) : PR :=
  match currentLineOf st input with
  | none => PR.undef
  | some currText =>
    if currText ≠ [] ∧ 2 ≤ input.length ∧
        jsCharAt input (input.length - 2) = some '>' then
      if command = str "decoded" then PR.strv (jsTrim currText)
      else if jsIncludes currText command then
        if nargs then PR.strv (jsTrim (jsReplaceFirst command [] currText))
        else PR.tru
      else PR.undef
    else PR.undef

/-- A command transform: reads the input text, may mutate terminal state as a
side effect, and returns the (possibly rewritten) input. -/
abbrev Command := TermState → Str → TermState × Str

/-- `linebreak` command: replace every `"\n"` with `"<br />" + prompt + " "`. -/
def cmdLinebreak : Command := fun st input =>
  (st, jsReplaceAll (str "\n") (str "<br />" ++ getPrompt st ++ str " ") input)

/-- `echo` command: when an argument is present, pop the trailing prompt and
re-render the argument below a fresh prompt. -/
def cmdEcho : Command := fun st input =>
  let echoArg := parseArg st input (str "echo") true
  if echoArg.truthy then
    let popPrompt := input.take (input.length + 1 - (getPrompt st).length)
    (st, popPrompt ++ str "<br />" ++ echoArg.asStr ++ str "<br />    " ++
         getPrompt st ++ str " ")
  else (st, input)

/-- `help` command: when the bare word is present, append the static command
list dialog below a fresh prompt. -/
def cmdHelp : Command := fun st input =>
  if (parseArg st input (str "help") false).truthy then
    let helpDialog := str "Example Commands:<br /><br />cd $LOCATION<br />color $COLOR<br />text $COLOR<br />darkmode<br />lightmode<br />echo $STRING"
    let popPrompt := input.take (input.length + 1 - (getPrompt st).length)
    (st, popPrompt ++ str "<br />" ++ helpDialog ++ str "<br />" ++ getPrompt st)
  else (st, input)

/-- `color` command: set the output pane background; input passes through. -/
def cmdColor : Command := fun st input =>
  let colorArg := parseArg st input (str "color") true
  if colorArg.truthy then
    ({ st with stdoutBackground := colorArg.asStr }, input)
  else (st, input)

/-- `text` command: set the output pane text color; input passes through. -/
def cmdText : Command := fun st input =>
  let colorArg := parseArg st input (str "text") true
  if colorArg.truthy then
    ({ st with stdoutColor := colorArg.asStr }, input)
  else (st, input)

/-- The `resetBg` closure inside the `theme` command. -/
def themeReset (st : TermState) : TermState :=
  { st with stdoutBackground := str "var(--secondary-bg)",
            stdoutColor := str "var(--primary-text)",
            docFilter := str "none" }

/-- `theme` command: `lightmode`/`darkmode` toggles (each checks whether the
output background is already `"white"` and either resets or sets the white
background plus a document-level filter). -/
def cmdTheme : Command := fun st input =>
  let st1 :=
    if (parseArg st input (str "lightmode") false).truthy then
      if st.stdoutBackground = str "white" then themeReset st
      else { st with stdoutBackground := str "white",
                     stdoutColor := str "#121212",
                     docFilter := str "brightness(1.1) greyscale(.2)" }
    else st
  let st2 :=
    if (parseArg st1 input (str "darkmode") false).truthy then
      if st1.stdoutBackground = str "white" then themeReset st1
      else { st1 with stdoutBackground := str "white",
                      stdoutColor := str "#121212",
                      docFilter := str "invert(1)" }
    else st1
  (st2, input)

/-- `cd` command: when `"cd "` is present with an argument, append the
segment to the session path and set the directory-changed flag. -/
def cmdCd : Command := fun st input =>
  let chatArg := parseArg st input (str "cd ") true
  if chatArg.truthy then
    ({ st with path := st.path ++ str "/" ++ chatArg.asStr, cwd := true }, input)
  else (st, input)

/-- The constructor's `_Commands` table in insertion order (the `for..in`
loop of `_takeInput` visits own string keys in that order). -/
def defaultCommands : List (Str × Command) :=
  [(str "linebreak", cmdLinebreak), (str "echo", cmdEcho),
   (str "help", cmdHelp), (str "color", cmdColor), (str "text", cmdText),
   (str "theme", cmdTheme), (str "cd", cmdCd)]

/-- JS object property assignment `obj[key] = v` on a table kept in key
insertion order: an existing key is overwritten in place, a new key is
appended. -/
def jsObjSet {α : Type} (tbl : List (Str × α)) (key : Str) (v : α) :
    List (Str × α) :=
  if key ∈ tbl.map Prod.fst then
    tbl.map fun p => if p.1 = key then (key, v) else p
  else tbl ++ [(key, v)]

/-- `Terminal.addCommand(commandExecutor, name)`: `this._Commands[name] =
commandExecutor`.  Note the source's parameter order: the executor is the
first parameter and the name the second. -/
def addCommand (tbl : List (Str × Command)) (commandExecutor : Command)
    (name : Str) : List (Str × Command) :=
  jsObjSet tbl name commandExecutor

/-- `Terminal.commandNames` getter: `Object.keys(this._Commands)`. -/
def commandNames {α : Type} (tbl : List (Str × α)) : List Str :=
  tbl.map Prod.fst

/-- Apply every registered command to the input in registration order,
threading the terminal state (`for (const command in this._Commands) input =
this._Commands[command](input)`). -/
def runCommands (tbl : List (Str × Command)) (st : TermState) (input : Str) :
    TermState × Str :=
  tbl.foldl (fun acc p => p.2 acc.1 acc.2) (st, input)

/-- The message-persistence step at the end of `_takeInput`: extract the
decoded current line of `formatted`; when it is truthy and its first word is
not a registered command name, `DB.postMsg(this.user, message, this._path)`
is called. -/
def postedMessage (tbl : List (Str × Command)) (st : TermState)
    (formatted : Str) : Option (Str × Str × Str) :=
  match parseArg st formatted (str "decoded") false with
  | PR.strv m =>
    if m ≠ [] ∧ ¬ jsTrim ((jsSplit (str " ") m).headD []) ∈ commandNames tbl
    then some (st.user, m, st.path)
    else none
  | _ => none

/-- `Terminal._takeInput`, fired on keydown: if the textarea's `textLength`
equals the recorded buffer, return unchanged (debounce); otherwise record the
new length, clear the directory-changed flag, run the command chain over the
textarea value, blank the line when `clear` or a directory change occurred,
write stdout/stdin, and forward a plain chat message to the store.
`textLen` is the textarea's `textLength` at keydown; `raw` its value when the
deferred body runs. -/
def takeInput (tbl : List (Str × Command)) (st : TermState) (textLen : Nat)
    (raw : Str) : TermState :=
  if textLen = st.buffer then st
  else
    let st0 : TermState := { st with buffer := textLen, cwd := false }
    let res := runCommands tbl st0 raw
    let st1 := res.1
    let input := res.2
    let formatted : Str :=
      if (parseArg st1 input (str "clear") false).truthy || st1.cwd then []
      else input
    { st1 with
      stdoutHTML := getPrompt st1 ++ str " " ++ formatted ++ str " ",
      stdinValue := jsDecodeURI formatted,
      posted := st1.posted ++ (postedMessage tbl st1 formatted).toList }

/-- A fresh `Terminal` as `index.js` builds it: default options (`user =
"alias"`, `system = "ubuntu"`, `path = "~"`, `ps1 = "$"`, no excluded
commands), empty textarea (so `_buffer = 0`), the style loader's initial
output-pane text color, and the first prompt rendered by `refresh`. -/
def defaultTermBase : TermState :=
  { user := str "alias", system := str "ubuntu", path := str "~",
    ps1 := str "$", buffer := 0, cwd := false, stdoutBackground := [],
    stdoutColor := str "var(--primary-text)", docFilter := [],
    stdinValue := [], stdoutHTML := [], posted := [] }

def defaultTerm : TermState :=
  { defaultTermBase with stdoutHTML := getPrompt defaultTermBase }

/-- Typing a line into the terminal, keystroke by keystroke: the keydown for
the i-th character fires `_takeInput` with `textLength = i` (the character is
not yet inserted) while the deferred body reads the value including it. -/
def typeLine (tbl : List (Str × Command)) (st : TermState) (line : Str) :
    TermState :=
  ((List.range line.length).map fun i => (i, line.take (i + 1))).foldl
    (fun s e => takeInput tbl s e.1 e.2) st

/-!
History Synchronizer (`Refresher.js`).  A `Refresher` polls `DB.getLogs()` on
a fixed interval and appends the not-yet-rendered suffix of the fetched log
to the history container.  `index.js` constructs it with the defaults
`PS1 = "$"` and `location = ""`.
-/

/-- A fetched message as `msgLine` consumes it (`alias` and `at` are keywords
in Lean, hence the primed field names; the store's `time` field is not read
by the client renderer). -/
structure Msg where
  alias' : Str
  at' : Str
  content : Str
deriving DecidableEq

/-- The `msgLine` helper inside the `Refresher` constructor: the rendered
line for one message, with `message.content.replace("_", " ")` (a string
pattern, so only the first underscore is replaced). -/
def msgLine (location PS1 : Str) (m : Msg) : Str :=
  str "<span style=\"color: var(--secondary-text)\">" ++ m.alias' ++
  str "@" ++ m.at' ++ str ":</span><span style=\"color: var(--tertiary-text)\"\">" ++
  location ++ str "</span><span style=\"color: var(--primary-text)\">" ++
  PS1 ++ str "</span> " ++ jsReplaceFirst (str "_") (str " ") m.content

/-- Everything of a rendered `msgLine` before the message content. -/
def msgHeader (alias' at' location PS1 : Str) : Str :=
  str "<span style=\"color: var(--secondary-text)\">" ++ alias' ++
  str "@" ++ at' ++ str ":</span><span style=\"color: var(--tertiary-text)\"\">" ++
  location ++ str "</span><span style=\"color: var(--primary-text)\">" ++
  PS1 ++ str "</span> "

/-- Synchronizer state: the rendered-count counter `currDepth` and the
history transcript (the children appended to the content box). -/
structure RefState where
  currDepth : Nat
  transcript : List Str
deriving DecidableEq

/-- Refresher state at construction: `this.currDepth = 0`, nothing appended. -/
def initRefState : RefState := { currDepth := 0, transcript := [] }

/-- The merge loop of one interval tick, after a successful fetch:
`while (messages.length > this.currDepth) { appendChild(msgLine(
logs[messages[this.currDepth]])); this.currDepth += 1; }`.  `Object.keys` of
the fetched JSON array are its indices in order, so `logs[messages[d]]` is
`logs[d]`. -/
def mergeLogs (location PS1 : Str) (logs : List Msg) (st : RefState) :
    RefState :=
  if h : st.currDepth < logs.length then
    mergeLogs location PS1 logs
      { currDepth := st.currDepth + 1,
        transcript := st.transcript ++
          [msgLine location PS1 (logs.get ⟨st.currDepth, h⟩)] }
  else st
termination_by logs.length - st.currDepth

/-- One interval tick.  A failed fetch (`none`) means the `.then` callback
never runs: the state is untouched and the next tick simply retries. -/
def refresherTick (location PS1 : Str) (st : RefState)
    (fetch : Option (List Msg)) : RefState :=
  match fetch with
  | none => st
  | some logs => mergeLogs location PS1 logs st

/-- A sequence of interval ticks, each with its own fetch outcome. -/
def refresherRun (location PS1 : Str) (st : RefState)
    (fetches : List (Option (List Msg))) : RefState :=
  fetches.foldl (refresherTick location PS1) st

/-!
Concrete scenarios used by individual claims.
-/

/-- A two-message store log for exercising one merge tick. -/
def c1logs : List Msg :=
  [{ alias' := str "alice", at' := str "home", content := str "hi" },
   { alias' := str "bob", at' := str "home", content := str "yo" }]

/-- Rendered input whose current line is `xdecodedx`, ending right after a
rendered prompt (second-to-last character `>` plus the trailing space the
`linebreak` command appends). -/
def c3input : Str := str "xdecodedx<br />" ++ getPrompt defaultTerm ++ str " "

/-- Rendered input whose current line is `say echo hi`. -/
def c3winput : Str := str "say echo hi<br />" ++ getPrompt defaultTerm ++ str " "

/-- Terminal state after one `_takeInput` cycle over the typed line
`echo hello world` followed by Enter (the Enter keydown fires with
`textLength = 16`, the deferred body reads the value with the newline). -/
def c4state : TermState :=
  takeInput defaultCommands defaultTerm 16 (str "echo hello world\n")

/-- A stored message whose content has two underscores. -/
def c5msg : Msg := { alias' := str "al", at' := str "room", content := str "a_b_c" }

/-- Terminal state after typing `cd foo` + Enter, keystroke by keystroke. -/
def c8state1 : TermState := typeLine defaultCommands defaultTerm (str "cd foo\n")

/-- Terminal state after then typing `cd bar` + Enter. -/
def c8state2 : TermState := typeLine defaultCommands c8state1 (str "cd bar\n")

/-!
Helper lemmas about the string builtins and the merge loop.
-/

theorem strPre_iff (p s : Str) : strPre p s = true ↔ ∃ t, s = p ++ t := by
  induction p generalizing s with
  | nil =>
    simp [strPre]
  | cons a as ih =>
    cases s with
    | nil => simp [strPre]
    | cons b bs =>
      simp only [strPre, Bool.and_eq_true, decide_eq_true_eq, ih,
        List.cons_append, List.cons.injEq]
      constructor
      · rintro ⟨rfl, t, rfl⟩
        exact ⟨t, rfl, rfl⟩
      · rintro ⟨t, rfl, rfl⟩
        exact ⟨rfl, t, rfl⟩

theorem jsIncludes_iff (s pat : Str) :
    jsIncludes s pat = true ↔ ∃ a b, s = a ++ pat ++ b := by
  induction s with
  | nil =>
    simp only [jsIncludes, decide_eq_true_eq]
    constructor
    · rintro rfl
      exact ⟨[], [], rfl⟩
    · rintro ⟨a, b, h⟩
      rcases List.append_eq_nil.mp h.symm with ⟨h1, rfl⟩
      rcases List.append_eq_nil.mp h1 with ⟨rfl, rfl⟩
      rfl
  | cons c rest ih =>
    simp only [jsIncludes, Bool.or_eq_true, strPre_iff, ih]
    constructor
    · rintro (⟨t, ht⟩ | ⟨a, b, rfl⟩)
      · exact ⟨[], t, ht⟩
      · exact ⟨c :: a, b, rfl⟩
    · rintro ⟨a, b, h⟩
      cases a with
      | nil =>
        left
        exact ⟨b, by simpa using h⟩
      | cons x xs =>
        right
        injection h with h1 h2
        exact ⟨xs, b, h2⟩

theorem jsReplaceFirst_not_mem (c r : Char) (s : Str) (h : ¬ c ∈ s) :
    jsReplaceFirst [c] [r] s = s := by
  induction s with
  | nil => rfl
  | cons b bs ih =>
    simp only [List.mem_cons, not_or] at h
    have hpre : ¬ strPre [c] (b :: bs) = true := by
      simp [strPre, h.1]
    simp only [jsReplaceFirst]
    rw [if_neg hpre, ih h.2]

theorem jsReplaceFirst_first (c r : Char) (a b : Str) (h : ¬ c ∈ a) :
    jsReplaceFirst [c] [r] (a ++ c :: b) = a ++ r :: b := by
  induction a with
  | nil =>
    simp [jsReplaceFirst, strPre]
  | cons x xs ih =>
    simp only [List.mem_cons, not_or] at h
    have hpre : ¬ strPre [c] (x :: (xs ++ c :: b)) = true := by
      simp [strPre, h.1]
    show jsReplaceFirst [c] [r] (x :: (xs ++ c :: b)) = x :: (xs ++ r :: b)
    simp only [jsReplaceFirst]
    rw [if_neg hpre, ih h.2]

theorem mergeLogs_closed (location PS1 : Str) (logs : List Msg)
    (st : RefState) :
    mergeLogs location PS1 logs st =
      { currDepth := max logs.length st.currDepth,
        transcript := st.transcript ++
          ((logs.drop st.currDepth).map (msgLine location PS1)) } := by
  have key : ∀ (n : Nat) (st : RefState), logs.length - st.currDepth ≤ n →
      mergeLogs location PS1 logs st =
        { currDepth := max logs.length st.currDepth,
          transcript := st.transcript ++
            ((logs.drop st.currDepth).map (msgLine location PS1)) } := by
    intro n
    induction n with
    | zero =>
      intro st hn
      have hd : logs.length ≤ st.currDepth := by omega
      rw [mergeLogs, dif_neg (by omega)]
      rw [Nat.max_eq_right hd, List.drop_eq_nil_of_le hd]
      simp
    | succ n ih =>
      intro st hn
      by_cases hd : st.currDepth < logs.length
      · rw [mergeLogs, dif_pos hd]
        rw [ih _ (show logs.length - (st.currDepth + 1) ≤ n by omega)]
        have h2 := List.drop_eq_getElem_cons hd
        simp only [RefState.mk.injEq]
        constructor
        · show max logs.length (st.currDepth + 1) = max logs.length st.currDepth
          omega
        · show (st.transcript ++
              [msgLine location PS1 (logs.get ⟨st.currDepth, hd⟩)]) ++
              List.map (msgLine location PS1) (List.drop (st.currDepth + 1) logs) =
              st.transcript ++
              List.map (msgLine location PS1) (List.drop st.currDepth logs)
          rw [h2, List.map_cons, List.append_assoc, List.singleton_append,
            List.get_eq_getElem]
      · rw [mergeLogs, dif_neg hd]
        have hd' : logs.length ≤ st.currDepth := by omega
        rw [Nat.max_eq_right hd', List.drop_eq_nil_of_le hd']
        simp
  exact key (logs.length - st.currDepth) st le_rfl

theorem toNat_char_ofNat (n : Nat) (h : n < 55296) : (Char.ofNat n).toNat = n := by
  have hv : Nat.isValidChar n := Or.inl h
  unfold Char.ofNat
  rw [dif_pos hv]
  rfl

theorem uriUnescaped_lower_subst (c : Char) :
    uriUnescaped (if isAlnumCI c then Char.toLower c else '_') = true := by
  by_cases h : isAlnumCI c = true
  · rw [if_pos h]
    unfold Char.toLower
    by_cases hu : Char.toNat c ≥ 65 ∧ Char.toNat c ≤ 90
    · rw [if_pos hu]
      have ht : (Char.ofNat (Char.toNat c + 32)).toNat = Char.toNat c + 32 :=
        toNat_char_ofNat _ (by omega)
      unfold uriUnescaped
      rw [Bool.or_eq_true]
      left
      unfold isAlnumCI
      rw [ht]
      simp
      omega
    · rw [if_neg hu]
      unfold uriUnescaped
      rw [Bool.or_eq_true]
      left
      exact h
  · rw [if_neg h]
    decide

theorem jsEncodeURI_unescaped (s : Str) (h : ∀ c ∈ s, uriUnescaped c = true) :
    jsEncodeURI s = s := by
  induction s with
  | nil => rfl
  | cons c rest ih =>
    simp only [jsEncodeURI]
    rw [if_pos (h c (List.mem_cons_self c rest)),
      ih (fun d hd => h d (List.mem_cons_of_mem c hd))]
    rfl

theorem urlSafePart_char_map (s : Str) :
    urlSafePart s = s.map fun c => if isAlnumCI c then Char.toLower c else '_' := by
  unfold urlSafePart jsToLowerCase replaceNonAlnum
  rw [List.map_map]
  congr 1
  funext c
  by_cases h : isAlnumCI c = true
  · simp [Function.comp, h]
  · simp [Function.comp, h]

/-!
Claim theorems.
-/

/-- C1: one synchronizer merge tick over a successfully fetched log `logs`
appends exactly the rendered entries `logs[d], ..., logs[len-1]` (in order)
to the history transcript and sets the rendered count to `logs.length` when
`logs.length > d`; it appends nothing and leaves the count unchanged when
`logs.length ≤ d`; hence running the merge again on the same log changes
nothing (idempotent merge). -/
theorem C1_merge_appends_suffix (location PS1 : Str) (logs : List Msg)
    (st : RefState) :
    (st.currDepth < logs.length →
      mergeLogs location PS1 logs st =
        { currDepth := logs.length,
          transcript := st.transcript ++
            ((logs.drop st.currDepth).map (msgLine location PS1)) })
  ∧ (logs.length ≤ st.currDepth → mergeLogs location PS1 logs st = st)
  ∧ mergeLogs location PS1 logs (mergeLogs location PS1 logs st) =
      mergeLogs location PS1 logs st := by
  refine ⟨?_, ?_, ?_⟩
  · intro h
    rw [mergeLogs_closed, Nat.max_eq_left (Nat.le_of_lt h)]
  · intro h
    rw [mergeLogs_closed, Nat.max_eq_right h, List.drop_eq_nil_of_le h]
    simp
  · rw [mergeLogs_closed location PS1 logs st]
    rw [mergeLogs_closed location PS1 logs]
    have hmax : max logs.length (max logs.length st.currDepth) =
        max logs.length st.currDepth := by omega
    have hdrop : logs.drop (max logs.length st.currDepth) = [] :=
      List.drop_eq_nil_of_le (by omega)
    simp [hmax, hdrop]

/-- C1 witness: merging a two-message log into the fresh synchronizer
renders both messages in order and sets the rendered count to 2. -/
theorem C1_witness :
    mergeLogs [] (str "$") c1logs initRefState =
      { currDepth := 2, transcript := c1logs.map (msgLine [] (str "$")) } :=
  ((C1_merge_appends_suffix [] (str "$") c1logs initRefState).1
    (by decide)).trans (by decide)

/-- C2: the rendered count starts at 0, a failed fetch leaves the
synchronizer state (count and transcript) exactly unchanged, and the count
never decreases across any tick nor across any sequence of ticks. -/
theorem C2_renderedCount_monotonic :
    initRefState.currDepth = 0
  ∧ (∀ location PS1 st, refresherTick location PS1 st none = st)
  ∧ (∀ location PS1 st fetch,
      st.currDepth ≤ (refresherTick location PS1 st fetch).currDepth)
  ∧ (∀ location PS1 st fetches,
      st.currDepth ≤ (refresherRun location PS1 st fetches).currDepth) := by
  have tick : ∀ location PS1 st fetch,
      st.currDepth ≤ (refresherTick location PS1 st fetch).currDepth := by
    intro location PS1 st fetch
    cases fetch with
    | none => exact Nat.le_refl _
    | some logs =>
      show st.currDepth ≤ (mergeLogs location PS1 logs st).currDepth
      rw [mergeLogs_closed]
      exact Nat.le_max_right _ _
  refine ⟨rfl, fun _ _ _ => rfl, tick, ?_⟩
  intro location PS1 st fetches
  induction fetches generalizing st with
  | nil => exact Nat.le_refl _
  | cons f fs ih =>
    exact Nat.le_trans (tick location PS1 st f)
      (ih (refresherTick location PS1 st f))

/-- C3 counterexample: for the special command keyword `decoded` the claim
fails.  On an input whose current line is `xdecodedx` (which contains the
keyword `decoded` and satisfies the line-boundary precondition), `_parseArg`
with `wantsArgument = false` returns the trimmed current line, a *string* —
neither `true` (as the claim demands for a contained keyword) nor
`undefined`. -/
theorem C3_counterexample :
    currentLineOf defaultTerm c3input = some (str "xdecodedx")
  ∧ 2 ≤ c3input.length
  ∧ jsCharAt c3input (c3input.length - 2) = some '>'
  ∧ jsIncludes (str "xdecodedx") (str "decoded") = true
  ∧ parseArg defaultTerm c3input (str "decoded") false =
      PR.strv (str "xdecodedx")
  ∧ PR.strv (str "xdecodedx") ≠ PR.tru := by
  decide

/-- C3 (amended): for every command keyword *other than the special name
`decoded`*, whenever the current logical line exists, is non-empty, and the
input ends at a line boundary (second-to-last character `>`), `_parseArg`
with `wantsArgument = false` returns `true` when the keyword is a substring
of the current line and `undefined` otherwise, and with
`wantsArgument = true` returns the current line with the first occurrence of
the keyword removed and trimmed when present, `undefined` otherwise. -/
theorem C3_parseArg_amended (st : TermState) (input command ct : Str)
    (hcmd : command ≠ str "decoded")
    (hline : currentLineOf st input = some ct)
    (hne : ct ≠ [])
    (hlen : 2 ≤ input.length)
    (hgt : jsCharAt input (input.length - 2) = some '>') :
    ((∃ a b, ct = a ++ command ++ b) →
        parseArg st input command false = PR.tru
      ∧ parseArg st input command true =
          PR.strv (jsTrim (jsReplaceFirst command [] ct)))
  ∧ ((¬ ∃ a b, ct = a ++ command ++ b) →
      ∀ nargs, parseArg st input command nargs = PR.undef) := by
  have hcond : ct ≠ [] ∧ 2 ≤ input.length ∧
      jsCharAt input (input.length - 2) = some '>' := ⟨hne, hlen, hgt⟩
  constructor
  · intro hsub
    have hinc : jsIncludes ct command = true := (jsIncludes_iff ct command).mpr hsub
    constructor
    · simp only [parseArg, hline]
      rw [if_pos hcond, if_neg hcmd, if_pos hinc]
      simp
    · simp only [parseArg, hline]
      rw [if_pos hcond, if_neg hcmd, if_pos hinc]
      simp
  · intro hsub nargs
    have hinc : ¬ jsIncludes ct command = true :=
      fun hc => hsub ((jsIncludes_iff ct command).mp hc)
    simp only [parseArg, hline]
    rw [if_pos hcond, if_neg hcmd, if_neg hinc]

/-- C3 witness: on a current line `say echo hi`, the keyword `echo` is
detected (`wantsArgument = false` gives `true`) and its argument extraction
(`wantsArgument = true`) removes the first `echo` and trims, yielding
`say  hi`. -/
theorem C3_witness :
    parseArg defaultTerm c3winput (str "echo") false = PR.tru
  ∧ parseArg defaultTerm c3winput (str "echo") true = PR.strv (str "say  hi") := by
  have h := (C3_parseArg_amended defaultTerm c3winput (str "echo")
      (str "say echo hi") (by decide) (by decide) (by decide) (by decide)
      (by decide)).1 ⟨str "say ", str " hi", by decide⟩
  exact ⟨h.1, h.2.trans (by decide)⟩

/-- C10: whenever the input's second-to-last character is not `>` (in
particular for raw typed text shorter than two characters), `_parseArg`
returns `undefined` for every command keyword — including `decoded` — and
both values of `wantsArgument`, and consequently the persistence step
extracts no message to forward to the store. -/
theorem C10_no_line_edge_undefined (st : TermState) (input : Str)
    (h : ¬ (2 ≤ input.length ∧
        jsCharAt input (input.length - 2) = some '>')) :
    (∀ command nargs, parseArg st input command nargs = PR.undef)
  ∧ (∀ tbl, postedMessage tbl st input = none) := by
  have hp : ∀ command nargs, parseArg st input command nargs = PR.undef := by
    intro command nargs
    rcases hc : currentLineOf st input with _ | ct
    · simp [parseArg, hc]
    · simp only [parseArg, hc]
      rw [if_neg (fun hh => h hh.2)]
  refine ⟨hp, ?_⟩
  intro tbl
  simp only [postedMessage, hp (str "decoded") false]

/-- C10 witness: the two-character raw input `hi` (second-to-last character
`h`) is rejected by the parser for the `decoded` keyword and produces no
message for persistence. -/
theorem C10_witness :
    parseArg defaultTerm (str "hi") (str "decoded") false = PR.undef
  ∧ postedMessage defaultCommands defaultTerm (str "hi") = none := by
  have h := C10_no_line_edge_undefined defaultTerm (str "hi") (by decide)
  exact ⟨h.1 (str "decoded") false, h.2 defaultCommands⟩

/-- C4: processing the input line `echo hello world` with the default
command table renders the text `hello world` on its own line followed by a
fresh prompt in the output region, and forwards no message to the Message
Store Client during that input cycle (the first word `echo` is a recognized
command name, which excludes the line from persistence). -/
theorem C4_echo_rendered_not_persisted :
    jsIncludes c4state.stdoutHTML
      (str "<br />hello world<br />    " ++ getPrompt defaultTerm) = true
  ∧ c4state.posted = [] := by
  decide

/-- C5 counterexample: the renderer replaces only the *first* underscore of
the stored content.  For content `a_b_c` the rendered line ends in `a b_c`,
not `a b c` as the claim ("every underscore") demands. -/
theorem C5_counterexample :
    msgLine [] (str "$") c5msg =
      msgHeader (str "al") (str "room") [] (str "$") ++ str "a b_c"
  ∧ msgLine [] (str "$") c5msg ≠
      msgHeader (str "al") (str "room") [] (str "$") ++ str "a b c" := by
  decide

/-- C5 (amended): every fetched message is rendered as
`alias@at: <prompt-symbol> content` where only the *first* underscore of the
stored content (if any) is replaced by a space; content without underscores
and everything after the first underscore are kept verbatim. -/
theorem C5_msgLine_first_underscore (location PS1 : Str) (m : Msg) :
    (¬ '_' ∈ m.content →
      msgLine location PS1 m =
        msgHeader m.alias' m.at' location PS1 ++ m.content)
  ∧ (∀ a b, ¬ '_' ∈ a → m.content = a ++ '_' :: b →
      msgLine location PS1 m =
        msgHeader m.alias' m.at' location PS1 ++ (a ++ ' ' :: b)) := by
  have hdec : msgLine location PS1 m =
      msgHeader m.alias' m.at' location PS1 ++
        jsReplaceFirst (str "_") (str " ") m.content := by
    unfold msgLine msgHeader
    simp [List.append_assoc]
  have hu : str "_" = ['_'] := rfl
  have hs : str " " = [' '] := rfl
  constructor
  · intro h
    rw [hdec, hu, hs, jsReplaceFirst_not_mem '_' ' ' m.content h]
  · intro a b ha hc
    rw [hdec, hu, hs, hc, jsReplaceFirst_first '_' ' ' a b ha]

/-- C5 witness: rendering the stored content `a_b_c` yields the header
followed by `a b_c` (first underscore replaced by a space, second kept). -/
theorem C5_witness :
    msgLine [] (str "$") c5msg =
      msgHeader (str "al") (str "room") [] (str "$") ++ str "a b_c" := by
  have h := (C5_msgLine_first_underscore [] (str "$") c5msg).2
    (str "a") (str "b_c") (by decide) (by decide)
  exact h.trans (by decide)

/-- C6 counterexample: the claim says characters inside `[A-Za-z0-9]` are
left unchanged, but `DB.postMsg` also lowercases: the alias `Bob` is
embedded as `bob` in the request URL, and `Bob` does not survive. -/
theorem C6_counterexample :
    urlSafePart (str "Bob") = str "bob"
  ∧ str "bob" ≠ str "Bob"
  ∧ postMsgUrl (str "Bob") (str "hi") (str "room") =
      str "http://143.198.57.139:80/msg/bob/hi/room" := by
  decide

/-- C6 (amended): each of the three strings passed to `DB.postMsg` is
transformed character-wise — characters outside `[A-Za-z0-9]` become `_`,
uppercase letters become their lowercase counterparts, lowercase letters and
digits are unchanged — and the percent-encoding applied on top is the
identity on the substituted strings, so the URL embeds the substituted parts
verbatim. -/
theorem C6_urlSafe_substitution :
    (∀ s, urlSafePart s =
        s.map fun c => if isAlnumCI c then Char.toLower c else '_')
  ∧ (∀ s, jsEncodeURI (urlSafePart s) = urlSafePart s)
  ∧ (∀ alias' content at', postMsgUrl alias' content at' =
      str "http://143.198.57.139:80/msg/" ++ urlSafePart alias' ++
      str "/" ++ urlSafePart content ++ str "/" ++ urlSafePart at') := by
  have hid : ∀ s, jsEncodeURI (urlSafePart s) = urlSafePart s := by
    intro s
    apply jsEncodeURI_unescaped
    intro c hc
    rw [urlSafePart_char_map] at hc
    rcases List.mem_map.mp hc with ⟨c0, _, rfl⟩
    exact uriUnescaped_lower_subst c0
  refine ⟨urlSafePart_char_map, hid, ?_⟩
  intro alias' content at'
  unfold postMsgUrl
  rw [hid, hid, hid]

/-- C7: evidence for the parameter-order slip in `addCommand`.  As written,
`addCommand = (commandExecutor, name) => { this._Commands[name] =
commandExecutor; }` inserts under its *second* argument: for a fresh key the
table gains the pair `(name, commandExecutor)` at the end and
`commandNames` gains `name`, where `name` is the second argument — while the
spec and the method's own JSDoc document `addCommand(name, fn)`. -/
theorem C7_addCommand_keys_second_argument (tbl : List (Str × Command))
    (f : Command) (n : Str) (h : ¬ n ∈ commandNames tbl) :
    addCommand tbl f n = tbl ++ [(n, f)]
  ∧ commandNames (addCommand tbl f n) = commandNames tbl ++ [n] := by
  have h1 : addCommand tbl f n = tbl ++ [(n, f)] := by
    unfold addCommand jsObjSet
    rw [if_neg]
    exact fun hm => h hm
  refine ⟨h1, ?_⟩
  rw [h1]
  unfold commandNames
  simp

/-- C7 witness: registering an executor under the fresh name `mycmd`
(passed as the *second* argument, per the source's parameter order) appends
`(mycmd, executor)` to the default table. -/
theorem C7_witness :
    addCommand defaultCommands cmdLinebreak (str "mycmd") =
      defaultCommands ++ [(str "mycmd", cmdLinebreak)]
  ∧ commandNames (addCommand defaultCommands cmdLinebreak (str "mycmd")) =
      commandNames defaultCommands ++ [str "mycmd"] :=
  C7_addCommand_keys_second_argument defaultCommands cmdLinebreak
    (str "mycmd") (by decide)

/-- C8: typing `cd foo` + Enter and then `cd bar` + Enter (keystroke by
keystroke, so each Enter cycle satisfies the parser's line-boundary
precondition) leaves the session path `~/foo/bar`; in each of the two Enter
cycles the directory-changed flag is set and the rendered line is replaced
with empty content (the output region holds just the fresh prompt and the
two spaces of the write-back template). -/
theorem C8_cd_twice :
    c8state1.path = str "~/foo"
  ∧ c8state2.path = str "~/foo/bar"
  ∧ c8state1.cwd = true
  ∧ c8state2.cwd = true
  ∧ c8state1.stdoutHTML = getPrompt c8state1 ++ str "  "
  ∧ c8state2.stdoutHTML = getPrompt c8state2 ++ str "  " := by
  decide

/-- C9: an input-processing trigger fired while the textarea's text length
equals the recorded buffer is ignored completely: the command table is not
applied and the terminal state — session, styles, buffer, transcript, and
the list of forwarded messages — is returned exactly unchanged. -/
theorem C9_debounced_trigger_is_noop (tbl : List (Str × Command))
    (st : TermState) (textLen : Nat) (raw : Str) (h : textLen = st.buffer) :
    takeInput tbl st textLen raw = st := by
  unfold takeInput
  rw [if_pos h]

/-- C9 witness: a trigger on the fresh terminal with unchanged text length 0
leaves the state untouched. -/
theorem C9_witness :
    takeInput defaultCommands defaultTerm 0 (str "ignored") = defaultTerm :=
  C9_debounced_trigger_is_noop defaultCommands defaultTerm 0 (str "ignored")
    rfl

end ChattyApp
